import Mathlib

/-!
Verification development for the `psi` spectral-interpolation package.

The Python sources are embedded shallowly over `ℚ` (machine floats are
idealised as exact rationals; `numpy` reductions such as `nanmedian` and
`std` are given exact counterparts).  Matrices are lists of rows, and a
structured array is a list of field names together with a column map.
-/

set_option maxHeartbeats 1000000

/-- Embedding of `within` from `psi/utils.py`:
`return (value < bound[1]) & (value > bound[0])`. -/
def within (bound : ℚ × ℚ) (value : ℚ) : Bool :=
  decide (value < bound.2) && decide (value > bound.1)

/-- A numpy structured array as used by `psi/utils.py`: an ordered list of
field names and, for each field name, the column of values (one entry per
record).  `nrows` is the number of records. -/
structure StructArray where
  nrows : ℕ
  names : List String
  col : String → List ℚ

/-- Embedding of `make_struct` from `psi/utils.py`, for a dictionary whose
values are scalar floats: the dtype takes the dict's keys in order, `nl`
falls back to 1 because `len` of a scalar raises (caught by the bare
`except`), and `labels[n] = label_dict[n]` fills each length-1 column.
A field name outside the dict is mapped to the empty column (numpy would
raise on access; `dict_struct` never accesses such a name). -/
def make_struct (label_dict : List (String × ℚ)) : StructArray :=
  { nrows := 1
    names := label_dict.map Prod.fst
    col := fun n =>
      match label_dict.lookup n with
      | some v => [v]
      | none => [] }

/-- Embedding of `dict_struct` from `psi/utils.py`:
`dict([(n, struct[n]) for n in struct.dtype.names])`. -/
def dict_struct (struct : StructArray) : List (String × List ℚ) :=
  struct.names.map (fun n => (n, struct.col n))

/-- Embedding of `flatten_struct` from `psi/utils.py`.  With
`use_labels = None` it is `np.array(struct.tolist())`: one row per record,
holding the record's field values in declaration order.  With a list of
labels it is `np.array([struct[n] for n in use_labels])`: one row per
label, holding that label's column. -/
def flatten_struct (struct : StructArray) (use_labels : Option (List String)) :
    List (List ℚ) :=
  match use_labels with
  | none =>
      (List.range struct.nrows).map
        (fun i => struct.names.map (fun n => (struct.col n).getD i 0))
  | some labels => labels.map struct.col

/-- Matrix transpose for row-major rational matrices with `ncols` columns. -/
def transposeMat (m : List (List ℚ)) (ncols : ℕ) : List (List ℚ) :=
  (List.range ncols).map (fun j => m.map (fun row => row.getD j 0))

/-- State of a `CombinedInterpolator` (from `demo/loo_combined.py`, a
`SimplePSIModel`): the library of N records (spectra as rows over the
wavelength grid, the `miles_id` label of each record, per-pixel
signal-to-noise), the inclusion mask, and the configuration attributes
read by `get_weights`. -/
structure CombinedInterpolator where
  wavelengths : List ℚ
  library_spectra : List (List ℚ)
  library_labels : List String
  library_snr : List (List ℚ)
  library_mask : List Bool
  c3k_weight : ℚ
  has_errors : Bool
  bad_flux_value : ℚ
  unweighted : Bool
  logify_flux : Bool

/-- Modelled from the spec: the training view of the missing
`psi/model.py` base class — "the rows where mask is true" form the live
training projection of a library-wide per-row quantity. -/
def training_rows {α : Type} (mask : List Bool) (rows : List α) : List α :=
  ((mask.zip rows).filter Prod.fst).map Prod.snd

/-- Modelled from the spec: `self.training_snr`, the masked projection of
the library signal-to-noise rows. -/
def training_snr (m : CombinedInterpolator) : List (List ℚ) :=
  training_rows m.library_mask m.library_snr

/-- Modelled from the spec: `self.training_labels['miles_id']`, the masked
projection of the library `miles_id` labels. -/
def training_labels (m : CombinedInterpolator) : List String :=
  training_rows m.library_mask m.library_labels

/-- Modelled from the spec: `self.training_spectra`, the masked projection
of the library flux rows. -/
def training_spectra (m : CombinedInterpolator) : List (List ℚ) :=
  training_rows m.library_mask m.library_spectra

/-- Embedding of `np.nanmedian` on a list of rationals (exact values, so
there are no NaNs to skip): sort ascending, take the middle element for
odd length and the mean of the two middle elements for even length.  The
empty list is mapped to 0 (numpy would produce NaN there with a runtime
warning; theorems about medians therefore assume a non-empty list). -/
def nanmedian (xs : List ℚ) : ℚ :=
  let s := List.insertionSort (· ≤ ·) xs
  if xs.length = 0 then 0
  else if xs.length % 2 = 1 then s.getD (xs.length / 2) 0
  else (s.getD (xs.length / 2 - 1) 0 + s.getD (xs.length / 2) 0) / 2

/-- The base per-row, per-wavelength relative weight of `get_weights`
(`demo/loo_combined.py` lines 47-52): `training_snr[:, ind_wave]**2` when
fitting log flux, `(training_snr[:, ind_wave] / spec)**2` otherwise.
`i` indexes the training row, `c` the position within `ind_wave`, and
`spec` is the linear-units training flux with one column per entry of
`ind_wave`. -/
def base_weight (m : CombinedInterpolator) (ind_wave : List ℕ)
    (spec : List (List ℚ)) (i c : ℕ) : ℚ :=
  if m.logify_flux then
    (((training_snr m).getD i []).getD (ind_wave.getD c 0) 0) ^ 2
  else
    ((((training_snr m).getD i []).getD (ind_wave.getD c 0) 0) /
      ((spec.getD i []).getD c 0)) ^ 2

/-- The c3k flag of `get_weights` (line 55):
`c3k = (training_labels['miles_id'] == 'c3k')`. -/
def is_c3k (m : CombinedInterpolator) (i : ℕ) : Bool :=
  (training_labels m).getD i "" == "c3k"

/-- The per-column median of the non-flagged (MILES) base weights
(`wmiles = np.nanmedian(relative_weights[~c3k, :], axis=0)`, line 57). -/
def miles_median_weight (m : CombinedInterpolator) (ind_wave : List ℕ)
    (spec : List (List ℚ)) (c : ℕ) : ℚ :=
  nanmedian
    (((List.range (training_snr m).length).filter (fun i => !(is_c3k m i))).map
      (fun i => base_weight m ind_wave spec i c))

/-- The `relative_weights` local of `CombinedInterpolator.get_weights`
after the in-place c3k rescaling (`demo/loo_combined.py` lines 47-59):
the N × |ind_wave| matrix in which every non-flagged row keeps its base
weight and every c3k-flagged row is overwritten by `wmiles * c3k_weight`,
where `wmiles` is the per-column non-flagged median with zeros replaced
by 1 (`wmiles[wmiles == 0.] = 1.0;
relative_weights[c3k, :] = (wmiles * self.c3k_weight)[None, :]`). -/
def relative_weights (m : CombinedInterpolator) (ind_wave : List ℕ)
    (spec : List (List ℚ)) : List (List ℚ) :=
  (List.range (training_snr m).length).map (fun i =>
    (List.range ind_wave.length).map (fun c =>
      if is_c3k m i then
        (if miles_median_weight m ind_wave spec c = 0 then 1
         else miles_median_weight m ind_wave spec c) * m.c3k_weight
      else base_weight m ind_wave spec i c))

/-- Embedding of `CombinedInterpolator.get_weights`
(`demo/loo_combined.py` lines 38-61): with no uncertainties or an
unweighted configuration it returns `None` (ordinary least squares);
otherwise it returns the rescaled relative-weight matrix. -/
def get_weights (m : CombinedInterpolator) (ind_wave : List ℕ)
    (spec : List (List ℚ)) : Option (List (List ℚ)) :=
  if !m.has_errors || m.unweighted then
    none
  else
    some (relative_weights m ind_wave spec)

/-- Contents of the HDF5 training file read by `load_training_data`:
`wavelengths`, `spectra` (N rows over the wavelength grid), the
`miles_id` field of `parameters`, and `uncertainties`. -/
structure RawTrainingData where
  wavelengths : List ℚ
  spectra : List (List ℚ)
  labels : List String
  uncertainties : List (List ℚ)

/-- Default of the `c3k_weight` keyword argument of `load_training_data`
(`c3k_weight=1e-1`). -/
def c3k_weight_default : ℚ := 1/10

/-- Default of the `snr_threshold` keyword argument of
`load_training_data` (`snr_threshold=1e-10`). -/
def snr_threshold_default : ℚ := 1/10000000000

/-- Embedding of `CombinedInterpolator.load_training_data`
(`demo/loo_combined.py` lines 16-36): stores the file contents, sets
`library_snr = library_spectra / uncertainties` and `has_errors = True`,
marks as bad every entry whose signal-to-noise is below `snr_threshold`
or non-finite, replaces bad flux entries by the global
`np.nanmedian(library_spectra)` and bad signal-to-noise entries by 0.
For finite library values the ratio `spectra/unc` is non-finite precisely
when `unc = 0`, so `~np.isfinite(snr)` is embedded as `unc = 0`.
`reset_mask` lives in the missing `psi/model.py` base class and is
modelled from the spec: the inclusion mask is reset to all-true.
The method is total: bad values are handled locally and no error is
raised. -/
def load_training_data (m : CombinedInterpolator) (d : RawTrainingData)
    (c3k_weight snr_threshold : ℚ) : CombinedInterpolator :=
  let snr0 : ℕ → ℕ → ℚ := fun i w =>
    (d.spectra.getD i []).getD w 0 / (d.uncertainties.getD i []).getD w 0
  let bad : ℕ → ℕ → Bool := fun i w =>
    decide (snr0 i w < snr_threshold) ||
    decide ((d.uncertainties.getD i []).getD w 0 = 0)
  let bfv := nanmedian d.spectra.flatten
  { m with
    wavelengths := d.wavelengths
    library_spectra := (List.range d.spectra.length).map (fun i =>
      (List.range (d.spectra.getD i []).length).map (fun w =>
        if bad i w then bfv else (d.spectra.getD i []).getD w 0))
    library_labels := d.labels
    library_snr := (List.range d.spectra.length).map (fun i =>
      (List.range (d.spectra.getD i []).length).map (fun w =>
        if bad i w then 0 else snr0 i w))
    library_mask := List.replicate d.spectra.length true
    c3k_weight := c3k_weight
    has_errors := true
    bad_flux_value := bfv }

/-- A two-star library (one MILES star, one c3k model) used to instantiate
the `get_weights` theorems on concrete data. -/
def egC3kModel : CombinedInterpolator :=
  ⟨[1, 2], [[4, 4], [6, 6]], ["star", "c3k"], [[2, 2], [3, 3]],
    [true, true], 1/10, true, 0, false, true⟩

/-- A raw library with one zero-uncertainty (hence non-finite
signal-to-noise) entry, used to instantiate the loading theorem. -/
def egRawData : RawTrainingData :=
  ⟨[1, 2], [[10, 5], [7, 9]], ["a", "b"], [[0, 1], [1, 3]]⟩

/-- Modelled from the spec: the error taxonomy of §7 for the missing
`psi/model.py` — training a set with more design-matrix columns than
masked training rows signals `RankDeficientError`. -/
inductive TrainError where
  | rankDeficientError
deriving DecidableEq

/-- Modelled from the spec: `train()` of the missing `psi/model.py`.  For
every wavelength channel it solves an independent weighted least-squares
problem (the per-channel solver is abstract here, passed as `solve`);
when the number of design-matrix columns — bias plus the declared feature
terms — exceeds the number of currently-masked training rows, it signals
`RankDeficientError` instead of returning coefficients (spec §4.4 and the
rank-check property of §8). -/
def train (mask : List Bool) (features : List (List String)) (n_wave : ℕ)
    (solve : ℕ → List ℚ) : Except TrainError (List (List ℚ)) :=
  if mask.count true < features.length + 1 then
    Except.error TrainError.rankDeficientError
  else
    Except.ok ((List.range n_wave).map solve)

/-- The per-wavelength training information rebuilt by
`build_training_info`. -/
structure TrainingInfo where
  reference_index : Option ℕ
  reference_spectrum : List ℝ

/-- Mean of a list of rationals (`0` for the empty list, by `x / 0 = 0`). -/
def list_mean (xs : List ℚ) : ℚ := xs.sum / xs.length

/-- Population variance (`ddof = 0`, as in `np.std`) of a list of
rationals. -/
def list_var (xs : List ℚ) : ℚ :=
  list_mean (xs.map (fun x => (x - list_mean xs) ^ 2))

/-- Standard deviation of a list of rationals, idealising the float
square root of `np.std` as the real square root. -/
noncomputable def list_std (xs : List ℚ) : ℝ := Real.sqrt (list_var xs)

/-- Column `w` of a row-major matrix. -/
def matrix_col (rows : List (List ℚ)) (w : ℕ) : List ℚ :=
  rows.map (fun r => r.getD w 0)

/-- Embedding of `CombinedInterpolator.build_training_info`
(`demo/loo_combined.py` lines 63-65): sets `reference_index = None` and
`reference_spectrum = training_spectra.std(axis=0)`, the per-wavelength
standard deviation of the flux of the currently-masked training rows. -/
noncomputable def build_training_info (m : CombinedInterpolator) : TrainingInfo :=
  { reference_index := none
    reference_spectrum := (List.range m.wavelengths.length).map
      (fun w => list_std (matrix_col (training_spectra m) w)) }

/-- A model whose training view keeps only its first library star. -/
def refModelA : CombinedInterpolator :=
  ⟨[1, 2], [[1, 2], [5, 5]], ["a", "b"], [[1, 1], [1, 1]],
    [true, false], 1/10, true, 0, false, true⟩

/-- A model differing from `refModelA` everywhere except in its masked
training view and wavelength-grid size. -/
def refModelB : CombinedInterpolator :=
  ⟨[3, 4], [[1, 2], [7, 8]], ["a", "x"], [[2, 2], [3, 3]],
    [true, false], 1/5, true, 1, true, false⟩

theorem flatten_struct_none_eq (s : StructArray) :
    flatten_struct s none =
      (List.range s.nrows).map
        (fun i => s.names.map (fun n => (s.col n).getD i 0)) := rfl

theorem flatten_struct_some_eq (s : StructArray) (labels : List String) :
    flatten_struct s (some labels) = labels.map s.col := rfl

theorem getD_range_map_self (xs : List ℚ) :
    (List.range xs.length).map (fun i => xs.getD i 0) = xs := by
  apply List.ext_getElem
  · simp
  · intro n h₁ h₂
    simp only [List.getElem_map, List.getElem_range]
    rw [List.getD_eq_getElem]

theorem lookup_eq_some_of_nodup {d : List (String × ℚ)} {p : String × ℚ}
    (hnd : (d.map Prod.fst).Nodup) (hp : p ∈ d) : d.lookup p.1 = some p.2 := by
  induction d with
  | nil => cases hp
  | cons q t ih =>
    rcases List.mem_cons.mp hp with h | h
    · subst h
      simp [List.lookup]
    · have hq : q.1 ∉ t.map Prod.fst := (List.nodup_cons.mp hnd).1
      have hne : q.1 ≠ p.1 := by
        intro hcontra
        exact hq (hcontra ▸ List.mem_map_of_mem Prod.fst h)
      have hbeq : (p.1 == q.1) = false := by
        simp [beq_iff_eq]
        exact fun hc => hne hc.symm
      simp [List.lookup, hbeq]
      exact ih (List.nodup_cons.mp hnd).2 h

/-- C8: `within((lo, hi), v)` is true exactly when `lo < v` and `v < hi`;
values equal to either endpoint are outside the bound. -/
theorem within_strict_iff (lo hi v : ℚ) :
    (within (lo, hi) v = true ↔ lo < v ∧ v < hi) ∧
    within (lo, hi) lo = false ∧ within (lo, hi) hi = false := by
  refine ⟨?_, ?_, ?_⟩
  · simp [within, and_comm]
  · simp [within]
  · simp [within]

theorem within_strict_iff_witness : within (1, 3) 2 = true :=
  (within_strict_iff 1 3 2).1.mpr (by constructor <;> norm_num)

/-- C9: for a non-empty dictionary of scalar labels with distinct keys,
`dict_struct (make_struct d)` has exactly the keys of `d`, each mapped to
the one-element column holding that key's value. -/
theorem dict_struct_make_struct_roundtrip (d : List (String × ℚ))
    (hne : d ≠ []) (hnd : (d.map Prod.fst).Nodup) :
    dict_struct (make_struct d) = d.map (fun p => (p.1, [p.2])) := by
  unfold dict_struct make_struct
  simp only [List.map_map]
  apply List.map_congr_left
  intro p hp
  simp only [Function.comp_apply]
  rw [lookup_eq_some_of_nodup hnd hp]

theorem dict_struct_make_struct_roundtrip_witness :
    dict_struct (make_struct [("teff", 5000), ("logg", 9/2)]) =
      [("teff", [5000]), ("logg", [9/2])] :=
  dict_struct_make_struct_roundtrip [("teff", 5000), ("logg", 9/2)]
    (by decide) (by decide)

/-- C10: for a structured array whose columns all have length `nrows`,
flattening by the full label list equals the transpose of the plain
flattening; the former is a (#labels × N) matrix whose row `k` is the
`k`-th label's column, the latter an (N × #fields) matrix. -/
theorem flatten_struct_labels_eq_transpose (s : StructArray)
    (hwf : ∀ n ∈ s.names, (s.col n).length = s.nrows) :
    flatten_struct s (some s.names) =
      transposeMat (flatten_struct s none) s.names.length ∧
    (flatten_struct s (some s.names)).length = s.names.length ∧
    (flatten_struct s none).length = s.nrows ∧
    (∀ row ∈ flatten_struct s none, row.length = s.names.length) ∧
    (∀ k, ∀ hk : k < s.names.length,
      (flatten_struct s (some s.names)).getD k [] = s.col (s.names.getD k "")) := by
  refine ⟨?_, by simp [flatten_struct_some_eq], by simp [flatten_struct_none_eq], ?_, ?_⟩
  · rw [flatten_struct_some_eq, flatten_struct_none_eq]
    unfold transposeMat
    apply List.ext_getElem
    · simp
    · intro k h₁ h₂
      rw [List.length_map] at h₁
      simp only [List.getElem_map, List.getElem_range, List.map_map]
      have hmem : s.names[k] ∈ s.names := List.getElem_mem h₁
      have hlen : (s.col s.names[k]).length = s.nrows := hwf _ hmem
      apply List.ext_getElem
      · simpa using hlen
      · intro i hi₁ hi₂
        simp only [List.getElem_map, List.getElem_range, Function.comp_apply]
        rw [List.getD_eq_getElem _ _ (by simpa using h₁)]
        simp only [List.getElem_map]
        rw [List.getD_eq_getElem _ _ (by omega)]
  · intro row hrow
    rw [flatten_struct_none_eq] at hrow
    simp only [List.mem_map] at hrow
    obtain ⟨i, _, hrow⟩ := hrow
    simp [← hrow]
  · intro k hk
    rw [flatten_struct_some_eq]
    rw [List.getD_eq_getElem _ _ (by simpa using hk)]
    rw [List.getD_eq_getElem _ _ hk]
    simp

theorem flatten_struct_labels_eq_transpose_witness :
    flatten_struct ⟨2, ["a", "b"], fun n => if n = "a" then [1, 2] else [3, 4]⟩
        (some ["a", "b"]) =
      transposeMat
        (flatten_struct ⟨2, ["a", "b"], fun n => if n = "a" then [1, 2] else [3, 4]⟩
          none) 2 :=
  (flatten_struct_labels_eq_transpose
    ⟨2, ["a", "b"], fun n => if n = "a" then [1, 2] else [3, 4]⟩
    (by intro n hn; fin_cases hn <;> simp)).1

/-- C5: `get_weights` returns the unweighted sentinel `None` exactly when
the model has no uncertainty data or is configured as unweighted;
otherwise it returns actual weights. -/
theorem get_weights_none_iff_unweighted (m : CombinedInterpolator)
    (ind_wave : List ℕ) (spec : List (List ℚ)) :
    (get_weights m ind_wave spec = none ↔
      (m.has_errors = false ∨ m.unweighted = true)) ∧
    ((m.has_errors = true ∧ m.unweighted = false) →
      (get_weights m ind_wave spec).isSome = true) := by
  constructor
  · unfold get_weights
    rcases hb : m.has_errors <;> rcases hu : m.unweighted <;> simp
  · rintro ⟨hb, hu⟩
    unfold get_weights
    simp [hb, hu]

theorem get_weights_none_iff_unweighted_witness :
    (get_weights
      ⟨[1], [[2]], ["star"], [[3]], [true], 1/10, true, 0, false, true⟩
      [0] [[2]]).isSome = true :=
  (get_weights_none_iff_unweighted
    ⟨[1], [[2]], ["star"], [[3]], [true], 1/10, true, 0, false, true⟩
    [0] [[2]]).2 ⟨rfl, rfl⟩

theorem relative_weights_length (m : CombinedInterpolator) (ind_wave : List ℕ)
    (spec : List (List ℚ)) :
    (relative_weights m ind_wave spec).length = (training_snr m).length := by
  simp [relative_weights]

theorem relative_weights_entry (m : CombinedInterpolator) (ind_wave : List ℕ)
    (spec : List (List ℚ)) (i c : ℕ) (hi : i < (training_snr m).length)
    (hc : c < ind_wave.length) :
    ((relative_weights m ind_wave spec).getD i []).getD c 0 =
      if is_c3k m i then
        (if miles_median_weight m ind_wave spec c = 0 then 1
         else miles_median_weight m ind_wave spec c) * m.c3k_weight
      else base_weight m ind_wave spec i c := by
  have hrow : (relative_weights m ind_wave spec).getD i [] =
      (List.range ind_wave.length).map (fun c =>
        if is_c3k m i then
          (if miles_median_weight m ind_wave spec c = 0 then 1
           else miles_median_weight m ind_wave spec c) * m.c3k_weight
        else base_weight m ind_wave spec i c) := by
    unfold relative_weights
    rw [List.getD_eq_getElem _ _ (by simpa using hi)]
    simp only [List.getElem_map, List.getElem_range]
  rw [hrow, List.getD_eq_getElem _ _ (by simpa using hc)]
  simp only [List.getElem_map, List.getElem_range]

theorem get_weights_eq_some (m : CombinedInterpolator) (ind_wave : List ℕ)
    (spec : List (List ℚ)) (hb : m.has_errors = true)
    (hu : m.unweighted = false) :
    get_weights m ind_wave spec = some (relative_weights m ind_wave spec) := by
  unfold get_weights
  simp [hb, hu]

/-- C2: with weighting enabled, every non-flagged training row's weight at
a wavelength is the squared signal-to-noise there when fitting log flux,
and the squared signal-to-noise divided by the squared current flux value
when fitting linear flux. -/
theorem nonflagged_weight_is_snr_squared (m : CombinedInterpolator)
    (ind_wave : List ℕ) (spec : List (List ℚ)) (i c : ℕ)
    (hb : m.has_errors = true) (hu : m.unweighted = false)
    (hi : i < (training_snr m).length) (hc : c < ind_wave.length)
    (hflag : (training_labels m).getD i "" ≠ "c3k") :
    ∃ W, get_weights m ind_wave spec = some W ∧
      (W.getD i []).getD c 0 =
        (if m.logify_flux then
          (((training_snr m).getD i []).getD (ind_wave.getD c 0) 0) ^ 2
        else
          (((training_snr m).getD i []).getD (ind_wave.getD c 0) 0) ^ 2 /
            ((spec.getD i []).getD c 0) ^ 2) := by
  refine ⟨relative_weights m ind_wave spec, get_weights_eq_some m ind_wave spec hb hu, ?_⟩
  rw [relative_weights_entry m ind_wave spec i c hi hc]
  have hfl : is_c3k m i = false := by
    unfold is_c3k
    simpa [beq_iff_eq] using hflag
  rw [hfl]
  simp only [Bool.false_eq_true, if_false]
  unfold base_weight
  rcases m.logify_flux with _ | _ <;> simp [div_pow]

theorem nonflagged_weight_is_snr_squared_witness :
    ∃ W,
      get_weights
        ⟨[1, 2], [[4, 4], [6, 6]], ["star", "c3k"], [[5, 7], [3, 3]],
          [true, true], 1/10, true, 0, false, true⟩ [1] [[4], [6]] = some W ∧
      (W.getD 0 []).getD 0 0 = 49 := by
  obtain ⟨W, hW, hval⟩ :=
    nonflagged_weight_is_snr_squared
      ⟨[1, 2], [[4, 4], [6, 6]], ["star", "c3k"], [[5, 7], [3, 3]],
        [true, true], 1/10, true, 0, false, true⟩ [1] [[4], [6]] 0 0
      rfl rfl (by decide) (by decide) (by decide)
  refine ⟨W, hW, ?_⟩
  rw [hval]
  norm_num [training_snr, training_rows]

/-- C1: with weighting enabled, every c3k-flagged training row is assigned
the uniform weight `(median of the non-flagged rows' weights at that
wavelength, an all-zero median replaced by 1) * c3k_weight`, and the
default of the configurable `c3k_weight` is 0.1. -/
theorem c3k_rows_get_scaled_median_weight (m : CombinedInterpolator)
    (ind_wave : List ℕ) (spec : List (List ℚ)) (i c : ℕ)
    (hb : m.has_errors = true) (hu : m.unweighted = false)
    (hi : i < (training_snr m).length) (hc : c < ind_wave.length)
    (hflag : (training_labels m).getD i "" = "c3k")
    (hmiles : ∃ j, j < (training_snr m).length ∧
      (training_labels m).getD j "" ≠ "c3k") :
    ∃ W, get_weights m ind_wave spec = some W ∧
      (let med := nanmedian
        (((List.range (training_snr m).length).filter
            (fun j => !((training_labels m).getD j "" == "c3k"))).map
          (fun j => (W.getD j []).getD c 0));
       (W.getD i []).getD c 0 = (if med = 0 then 1 else med) * m.c3k_weight) ∧
      (∀ i2, i2 < (training_snr m).length →
        (training_labels m).getD i2 "" = "c3k" →
        (W.getD i2 []).getD c 0 = (W.getD i []).getD c 0) ∧
      (∀ m0 : CombinedInterpolator, ∀ d : RawTrainingData,
        (load_training_data m0 d c3k_weight_default snr_threshold_default).c3k_weight
          = 1/10) := by
  obtain ⟨j0, hj0, hj0ne⟩ := hmiles
  refine ⟨relative_weights m ind_wave spec,
    get_weights_eq_some m ind_wave spec hb hu, ?_, ?_, ?_⟩
  · have hmed :
        nanmedian
          (((List.range (training_snr m).length).filter
              (fun j => !((training_labels m).getD j "" == "c3k"))).map
            (fun j => ((relative_weights m ind_wave spec).getD j []).getD c 0)) =
        miles_median_weight m ind_wave spec c := by
      unfold miles_median_weight
      congr 1
      apply List.map_congr_left
      intro j hj
      rcases List.mem_filter.mp hj with ⟨hjr, hjp⟩
      have hjlt : j < (training_snr m).length := List.mem_range.mp hjr
      have hjflag : is_c3k m j = false := by
        unfold is_c3k
        simpa using hjp
      rw [relative_weights_entry m ind_wave spec j c hjlt hc, hjflag]
      simp
    show ((relative_weights m ind_wave spec).getD i []).getD c 0 = _
    rw [hmed]
    rw [relative_weights_entry m ind_wave spec i c hi hc]
    have hifl : is_c3k m i = true := by
      unfold is_c3k
      rw [hflag]
      exact beq_self_eq_true _
    rw [hifl]
    simp
  · intro i2 hi2 hflag2
    rw [relative_weights_entry m ind_wave spec i2 c hi2 hc,
      relative_weights_entry m ind_wave spec i c hi hc]
    have h1 : is_c3k m i = true := by
      unfold is_c3k
      rw [hflag]
      exact beq_self_eq_true _
    have h2 : is_c3k m i2 = true := by
      unfold is_c3k
      rw [hflag2]
      exact beq_self_eq_true _
    rw [h1, h2]
    simp
  · intro m0 d
    rfl

theorem c3k_rows_get_scaled_median_weight_witness :
    ∃ W, get_weights egC3kModel [0] [[4], [6]] = some W ∧
      (W.getD 1 []).getD 0 0 = 2/5 := by
  obtain ⟨W, hW, _⟩ :=
    c3k_rows_get_scaled_median_weight egC3kModel [0] [[4], [6]] 1 0
      rfl rfl (by decide) (by decide) (by decide) ⟨0, by decide, by decide⟩
  have h2 : get_weights egC3kModel [0] [[4], [6]] = some [[4], [2/5]] := by
    have hs : ("star" : String) ≠ "c3k" := by decide
    norm_num [hs, get_weights, relative_weights, egC3kModel, training_snr,
      training_labels, training_rows, is_c3k, miles_median_weight, base_weight,
      nanmedian, List.insertionSort, List.orderedInsert, List.range_succ,
      List.filter_cons, List.getD_cons_zero, List.getD_cons_succ]
  rw [hW] at h2
  exact ⟨W, hW, by
    rw [Option.some.inj h2]
    norm_num [List.getD_cons_succ, List.getD_cons_zero]⟩

theorem nanmedian_nonneg {xs : List ℚ} (h : ∀ x ∈ xs, 0 ≤ x) :
    0 ≤ nanmedian xs := by
  unfold nanmedian
  have hperm : (List.insertionSort (· ≤ ·) xs).Perm xs :=
    List.perm_insertionSort _ xs
  have hlen : (List.insertionSort (· ≤ ·) xs).length = xs.length :=
    hperm.length_eq
  have hmem : ∀ i, ∀ hilt : i < (List.insertionSort (· ≤ ·) xs).length,
      0 ≤ (List.insertionSort (· ≤ ·) xs).getD i 0 := by
    intro i hilt
    rw [List.getD_eq_getElem _ _ hilt]
    exact h _ (hperm.mem_iff.mp (List.getElem_mem hilt))
  by_cases h0 : xs.length = 0
  · simp [h0]
  · rw [if_neg h0]
    by_cases hodd : xs.length % 2 = 1
    · rw [if_pos hodd]
      exact hmem _ (by omega)
    · rw [if_neg hodd]
      have ha := hmem (xs.length / 2) (by omega)
      have hb := hmem (xs.length / 2 - 1) (by omega)
      have : (0 : ℚ) ≤ (List.insertionSort (· ≤ ·) xs).getD (xs.length / 2 - 1) 0 +
          (List.insertionSort (· ≤ ·) xs).getD (xs.length / 2) 0 := by linarith
      linarith [div_nonneg this (by norm_num : (0:ℚ) ≤ 2)]

theorem base_weight_nonneg (m : CombinedInterpolator) (ind_wave : List ℕ)
    (spec : List (List ℚ)) (i c : ℕ) : 0 ≤ base_weight m ind_wave spec i c := by
  unfold base_weight
  split <;> positivity

theorem miles_median_weight_nonneg (m : CombinedInterpolator)
    (ind_wave : List ℕ) (spec : List (List ℚ)) (c : ℕ) :
    0 ≤ miles_median_weight m ind_wave spec c := by
  unfold miles_median_weight
  apply nanmedian_nonneg
  intro x hx
  obtain ⟨j, _, hj⟩ := List.mem_map.mp hx
  rw [← hj]
  exact base_weight_nonneg m ind_wave spec j c

/-- C4: with weighting enabled (and a non-negative configured
`c3k_weight`, as in its default 0.1), `get_weights` returns a matrix with
one row per training row and one column per requested wavelength index,
in which every entry is non-negative. -/
theorem get_weights_shape_and_nonneg (m : CombinedInterpolator)
    (ind_wave : List ℕ) (spec : List (List ℚ))
    (hb : m.has_errors = true) (hu : m.unweighted = false)
    (hcw : 0 ≤ m.c3k_weight) :
    ∃ W, get_weights m ind_wave spec = some W ∧
      W.length = (training_snr m).length ∧
      (∀ row ∈ W, row.length = ind_wave.length) ∧
      (∀ row ∈ W, ∀ x ∈ row, 0 ≤ x) := by
  refine ⟨relative_weights m ind_wave spec,
    get_weights_eq_some m ind_wave spec hb hu,
    relative_weights_length m ind_wave spec, ?_, ?_⟩
  · intro row hrow
    unfold relative_weights at hrow
    obtain ⟨i, _, hrow⟩ := List.mem_map.mp hrow
    rw [← hrow]
    simp
  · intro row hrow x hx
    unfold relative_weights at hrow
    obtain ⟨i, _, hrow⟩ := List.mem_map.mp hrow
    rw [← hrow] at hx
    obtain ⟨c, _, hx⟩ := List.mem_map.mp hx
    rw [← hx]
    by_cases hfl : is_c3k m i
    · rw [if_pos hfl]
      apply mul_nonneg _ hcw
      split
      · norm_num
      · exact miles_median_weight_nonneg m ind_wave spec c
    · rw [if_neg hfl]
      exact base_weight_nonneg m ind_wave spec i c

theorem get_weights_shape_and_nonneg_witness :
    ∃ W, get_weights egC3kModel [0] [[4], [6]] = some W ∧
      W.length = (training_snr egC3kModel).length ∧
      (∀ row ∈ W, ∀ x ∈ row, 0 ≤ x) := by
  obtain ⟨W, hW, hlen, _, hpos⟩ :=
    get_weights_shape_and_nonneg egC3kModel [0] [[4], [6]] rfl rfl
      (by norm_num [egC3kModel])
  exact ⟨W, hW, hlen, hpos⟩

theorem getD_range_map {α : Type} (f : ℕ → α) (d : α) (n i : ℕ) (h : i < n) :
    ((List.range n).map f).getD i d = f i := by
  rw [List.getD_eq_getElem _ _ (by simpa using h)]
  simp

theorem load_snr_matrix_eq (m : CombinedInterpolator) (d : RawTrainingData)
    (cw thr : ℚ) :
    (load_training_data m d cw thr).library_snr =
      (List.range d.spectra.length).map (fun i =>
        (List.range (d.spectra.getD i []).length).map (fun w =>
          if (decide ((d.spectra.getD i []).getD w 0 /
                (d.uncertainties.getD i []).getD w 0 < thr) ||
              decide ((d.uncertainties.getD i []).getD w 0 = 0)) then 0
          else (d.spectra.getD i []).getD w 0 /
            (d.uncertainties.getD i []).getD w 0)) := rfl

theorem load_spectra_matrix_eq (m : CombinedInterpolator) (d : RawTrainingData)
    (cw thr : ℚ) :
    (load_training_data m d cw thr).library_spectra =
      (List.range d.spectra.length).map (fun i =>
        (List.range (d.spectra.getD i []).length).map (fun w =>
          if (decide ((d.spectra.getD i []).getD w 0 /
                (d.uncertainties.getD i []).getD w 0 < thr) ||
              decide ((d.uncertainties.getD i []).getD w 0 = 0)) then
            nanmedian d.spectra.flatten
          else (d.spectra.getD i []).getD w 0)) := rfl

/-- C3: every library entry whose signal-to-noise is below the threshold
or non-finite (for finite library values, an entry with zero uncertainty)
is loaded with zero signal-to-noise, and its flux is replaced by the
global median of the library flux.  The handling is local:
`load_training_data` is a total function and raises no error. -/
theorem load_training_data_bad_entry (m : CombinedInterpolator)
    (d : RawTrainingData) (cw thr : ℚ) (i w : ℕ)
    (hi : i < d.spectra.length) (hw : w < (d.spectra.getD i []).length)
    (hbad : (d.spectra.getD i []).getD w 0 /
        (d.uncertainties.getD i []).getD w 0 < thr ∨
      (d.uncertainties.getD i []).getD w 0 = 0) :
    (((load_training_data m d cw thr).library_snr).getD i []).getD w 0 = 0 ∧
    (((load_training_data m d cw thr).library_spectra).getD i []).getD w 0 =
      nanmedian d.spectra.flatten := by
  have hbadb : (decide ((d.spectra.getD i []).getD w 0 /
        (d.uncertainties.getD i []).getD w 0 < thr) ||
      decide ((d.uncertainties.getD i []).getD w 0 = 0)) = true := by
    rcases hbad with h | h
    · rw [decide_eq_true h, Bool.true_or]
    · rw [decide_eq_true h, Bool.or_true]
  constructor
  · rw [load_snr_matrix_eq, getD_range_map _ _ _ _ hi,
      getD_range_map _ _ _ _ hw, hbadb]
    simp
  · rw [load_spectra_matrix_eq, getD_range_map _ _ _ _ hi,
      getD_range_map _ _ _ _ hw, hbadb]
    simp

theorem load_training_data_bad_entry_witness :
    (((load_training_data egC3kModel egRawData c3k_weight_default
        snr_threshold_default).library_snr).getD 0 []).getD 0 0 = 0 ∧
    (((load_training_data egC3kModel egRawData c3k_weight_default
        snr_threshold_default).library_spectra).getD 0 []).getD 0 0 =
      nanmedian egRawData.spectra.flatten :=
  load_training_data_bad_entry egC3kModel egRawData c3k_weight_default
    snr_threshold_default 0 0 (by decide) (by decide) (Or.inr (by decide))

/-- C6: whenever bias plus the number of feature terms exceeds the number
of currently-masked training rows, `train()` raises `RankDeficientError`
and returns no coefficients. -/
theorem train_rank_deficient (mask : List Bool) (features : List (List String))
    (n_wave : ℕ) (solve : ℕ → List ℚ)
    (h : mask.count true < features.length + 1) :
    train mask features n_wave solve =
      Except.error TrainError.rankDeficientError ∧
    ∀ coeffs, train mask features n_wave solve ≠ Except.ok coeffs := by
  unfold train
  rw [if_pos h]
  exact ⟨rfl, fun coeffs hcontra => Except.noConfusion hcontra⟩

theorem train_rank_deficient_witness :
    train [true, false, true] [["logt"], ["feh"], ["logt", "logt"]] 2
        (fun _ => [0]) =
      Except.error TrainError.rankDeficientError :=
  (train_rank_deficient [true, false, true]
    [["logt"], ["feh"], ["logt", "logt"]] 2 (fun _ => [0]) (by decide)).1

/-- C7: `build_training_info` sets the reference index to none and the
reference spectrum at each wavelength to the standard deviation of the
flux of the currently-masked training rows there; the result depends only
on the masked training set (and the wavelength-grid size). -/
theorem build_training_info_reference (m m2 : CombinedInterpolator)
    (hspec : training_spectra m = training_spectra m2)
    (hwave : m.wavelengths.length = m2.wavelengths.length) :
    (build_training_info m).reference_index = none ∧
    (∀ w, w < m.wavelengths.length →
      ((build_training_info m).reference_spectrum).getD w 0 =
        list_std ((training_spectra m).map (fun row => row.getD w 0))) ∧
    build_training_info m = build_training_info m2 := by
  refine ⟨rfl, ?_, ?_⟩
  · intro w hw
    have hrs : (build_training_info m).reference_spectrum =
        (List.range m.wavelengths.length).map
          (fun w => list_std (matrix_col (training_spectra m) w)) := rfl
    rw [hrs, List.getD_eq_getElem _ _ (by simpa using hw)]
    simp [matrix_col]
  · unfold build_training_info
    rw [hspec, hwave]

theorem build_training_info_reference_witness :
    (build_training_info refModelA).reference_index = none ∧
    build_training_info refModelA = build_training_info refModelB :=
  ⟨(build_training_info_reference refModelA refModelB rfl rfl).1,
   (build_training_info_reference refModelA refModelB rfl rfl).2.2⟩
